import Mathlib
/-!
Verification of the order/box reconciliation logic of `packing_checker.py`.

The Python source is shallowly embedded: strings are Lean `String`s
(lists of characters), Python `int` is `Int`, Python dictionaries are
association lists kept in insertion order, and fallible code returns
`Option`/`Except`.  Python whitespace is modelled by its ASCII subset,
which is the only whitespace the inputs of this program contain.
-/

namespace PackingChecker

/-- The ASCII whitespace characters removed by Python `str.strip()`
(the model restricts Python whitespace to its ASCII subset). -/
def pySpace (c : Char) : Bool :=
  c == ' ' || c == '\t' || c == '\n' || c == '\r' || c == '\x0b' || c == '\x0c'

/-- Python `str.strip()`: drop leading and trailing whitespace. -/
def pyStrip (l : List Char) : List Char :=
  List.rdropWhile pySpace (List.dropWhile pySpace l)

/-- Python strip lifted to `String`. -/
def pyStripS (s : String) : String := String.mk (pyStrip s.data)

/-- Python `str.lstrip('0')`: drop leading `'0'` characters. -/
def lstripZeros (l : List Char) : List Char := List.dropWhile (· == '0') l

/-- The function normalize_upc of packing_checker.py, line 25:
`str(upc).lstrip('0').strip()` — leading zeros first, then whitespace. -/
def normalize_upc (s : String) : String :=
  String.mk (pyStrip (lstripZeros s.data))

/-- The status classifier of `main_results_page` (packing_checker.py,
lines 123-137): the if/elif chain computing `note` and `missing` from
`scanned_total` and the order-line quantities. -/
def classify (scanned reserved confirmed total balance : Int) :
    String × Option Int :=
  if scanned = reserved ∧ reserved > 0 then ("To invoice", none)
  else if scanned ≤ confirmed ∧ confirmed > 0 then ("Already invoiced", none)
  else if scanned < reserved ∧ reserved > 0 then
    ("To unreserve and invoice (missing: " ++ toString (reserved - scanned) ++ ")",
      some (reserved - scanned))
  else if scanned > total then ("Check: Over-packed", none)
  else if scanned = 0 ∧ balance > 0 then
    ("Not found (missing: " ++ toString balance ++ ")", some balance)
  else ("", none)

/-- First-match evaluation of an ordered rule list; when no rule
matches, the note is empty (spec rule 6). -/
def firstMatch : List (Bool × (String × Option Int)) → String × Option Int
  | [] => ("", none)
  | r :: rest => if r.1 then r.2 else firstMatch rest

/-- The classifier as the spec states it: the six rules of spec §4.5
evaluated in order, first matching rule winning. -/
def classifySpec (scanned reserved confirmed total balance : Int) :
    String × Option Int :=
  firstMatch
    [ (decide (scanned = reserved ∧ reserved > 0), ("To invoice", none)),
      (decide (scanned ≤ confirmed ∧ confirmed > 0), ("Already invoiced", none)),
      (decide (scanned < reserved ∧ reserved > 0),
        ("To unreserve and invoice (missing: " ++ toString (reserved - scanned) ++ ")",
          some (reserved - scanned))),
      (decide (scanned > total), ("Check: Over-packed", none)),
      (decide (scanned = 0 ∧ balance > 0),
        ("Not found (missing: " ++ toString balance ++ ")", some balance)) ]

/-- Python `str.isdigit()`, restricted to ASCII digits: nonempty and
all characters are digits. -/
def pyIsDigit (s : String) : Bool := !s.data.isEmpty && s.data.all Char.isDigit

/-- Numeric value of a digit string (what Python `int(x)` returns on an
`isdigit` string). -/
def strNatVal (s : String) : Nat :=
  s.data.foldl (fun n c => n * 10 + (c.toNat - 48)) 0

/-- Ordering of box-ids by numeric value. -/
def numLe (a b : String) : Prop := strNatVal a ≤ strNatVal b

instance : DecidableRel numLe :=
  fun a b => inferInstanceAs (Decidable (strNatVal a ≤ strNatVal b))

instance : IsTotal String numLe := ⟨fun _ _ => Nat.le_total _ _⟩

instance : IsTrans String numLe := ⟨fun _ _ _ h h' => Nat.le_trans h h'⟩

/-- The box iteration order of `main_results_page`, line 113:
`sorted(keys, key=lambda x: int(x) if x.isdigit() else x)`.
CPython `sorted` raises `TypeError` as soon as an `int` key is compared
with a `str` key, which happens exactly when keys of both kinds are
present; that failure is modelled by `none`.  On homogeneous keys the
sort is by numeric value (all digit ids) or lexicographic (no digit
ids), and is stable in both cases. -/
def sortBoxIds (l : List String) : Option (List String) :=
  if (l.any fun s => pyIsDigit s) && (l.any fun s => !pyIsDigit s) then none
  else if l.all fun s => pyIsDigit s then some (List.insertionSort numLe l)
  else some (List.insertionSort (· ≤ ·) l)

/-- A per-UPC sub-mapping of the box ledger: box-id → quantity.
Python dictionaries are modelled as association lists in insertion
order. -/
abbrev SubPool := List (String × Int)

/-- The box ledger and the remaining-stock pool: UPC → box-id → qty. -/
abbrev Pool := List (String × SubPool)

/-- Dictionary lookup (`k in d` / `d[k]`) on an association list. -/
def alookup {β : Type} (l : List (String × β)) (k : String) : Option β :=
  match l with
  | [] => none
  | e :: t => if e.1 = k then some e.2 else alookup t k

/-- Dictionary assignment to an existing key (`d[k] = v`): replaces the
value stored at `k` keeping insertion order; a list without the key is
returned unchanged. -/
def aset {β : Type} (l : List (String × β)) (k : String) (v : β) :
    List (String × β) :=
  l.map fun e => if e.1 = k then (k, v) else e

/-- Python sum(d.values()) of a sub-mapping. -/
def subTotal (s : SubPool) : Int := (s.map fun e => e.2).sum

/-- Total stock recorded for a UPC: `sum(boxes[u].values())` when the
UPC is present, `0` otherwise. -/
def poolQty (p : Pool) (u : String) : Int :=
  match alookup p u with
  | none => 0
  | some s => subTotal s

/-- Shape of every ledger a Python dict of dicts can take with
nonnegative scanned quantities: no duplicate keys at either level, all
quantities `≥ 0`. -/
abbrev WFPool (p : Pool) : Prop :=
  (p.map fun e => e.1).Nodup ∧
    ∀ e ∈ p, ((e.2.map fun x => x.1).Nodup ∧ ∀ x ∈ e.2, 0 ≤ x.2)

/-- The greedy draw loop of `main_results_page` (lines 113-122): visit
the boxes in iteration order; while `qty_needed > 0`, draw
`min(qty_needed, box_qty)` from each box with positive remaining
quantity, record the non-zero draw, decrement the box destructively,
and stop as soon as `qty_needed` reaches `0`.  Returns
(allocation, scanned_total, updated sub-mapping). -/
def drawFromBoxes : List String → SubPool → Int →
    List (String × Int) × Int × SubPool
  | [], sub, _ => ([], 0, sub)
  | b :: rest, sub, need =>
    let q := (alookup sub b).getD 0
    let a := min need q
    if 0 < q ∧ 0 < need then
      if need - a = 0 then ([(b, a)], a, aset sub b (q - a))
      else
        let r := drawFromBoxes rest (aset sub b (q - a)) (need - a)
        ((b, a) :: r.1, a + r.2.1, r.2.2)
    else if need = 0 then ([], 0, sub)
    else drawFromBoxes rest sub need

/-- One row of the order ledger (spec §3 OrderLine).  `order_no` and
`style` default to `""`, as `row.get('ORDER NO', '')` does. -/
structure OrderLine where
  order_no : String := ""
  upc : String
  style : String := ""
  total : Int
  reserved : Int
  confirmed : Int
  balance : Int
deriving DecidableEq

/-- One row of the Main Allocation Table built by `main_results_page`
(lines 138-149), together with the `missing` value computed alongside
the note (lines 123-135); the allocation is kept as the list of
(box id, drawn qty) pairs the code formats into `"box(qty)"` strings. -/
structure ResultRow where
  order_no : String
  upc_code : String
  style : String
  total : Int
  reserved : Int
  confirmed : Int
  balance : Int
  allocated_qty : Int
  allocated_boxes : List (String × Int)
  note : String
  missing : Option Int
deriving DecidableEq

/-- Build one output row from an order line, its normalized UPC and the
draw results (lines 123-149). -/
def mkRow (line : OrderLine) (code : String) (scanned : Int)
    (alloc : List (String × Int)) : ResultRow :=
  { order_no := line.order_no, upc_code := code, style := line.style,
    total := line.total, reserved := line.reserved,
    confirmed := line.confirmed, balance := line.balance,
    allocated_qty := scanned, allocated_boxes := alloc,
    note := (classify scanned line.reserved line.confirmed line.total
      line.balance).1,
    missing := (classify scanned line.reserved line.confirmed line.total
      line.balance).2 }

/-- Processing of one order line against the shared remaining pool
(lines 100-149): normalize the UPC, draw greedily from
`boxes_remaining[code]` in sorted box order when the UPC is present,
and build the output row.  `none` models the `TypeError` that `sorted`
raises on box-ids of mixed kinds. -/
def allocateLine (pool : Pool) (line : OrderLine) :
    Option (ResultRow × Pool) :=
  match alookup pool (normalize_upc line.upc) with
  | none => some (mkRow line (normalize_upc line.upc) 0 [], pool)
  | some sub =>
    match sortBoxIds (sub.map fun x => x.1) with
    | none => none
    | some ids =>
      some (mkRow line (normalize_upc line.upc)
          (drawFromBoxes ids sub line.reserved).2.1
          (drawFromBoxes ids sub line.reserved).1,
        aset pool (normalize_upc line.upc)
          (drawFromBoxes ids sub line.reserved).2.2)

/-- The allocation pass of `main_results_page` (lines 96-149): process
the order lines in input order, each drawing from (and mutating) the
shared remaining pool that starts as a copy of the box ledger. -/
def main_results_page (pool : Pool) : List OrderLine → Option (List ResultRow)
  | [] => some []
  | l :: ls =>
    match allocateLine pool l with
    | none => none
    | some (row, pool') =>
      (main_results_page pool' ls).map fun rows => row :: rows

/-- A concrete sample run: one box of 4 units of UPC 999 against one
order line reserving 3. -/
def demoPool : Pool := [("999", [("1", 4)])]

/-- The order line of the sample run. -/
def demoLine : OrderLine :=
  { upc := "999", total := 3, reserved := 3, confirmed := 0, balance := 3 }

/-- The row the engine produces for the sample run. -/
def demoRow : ResultRow :=
  { order_no := "", upc_code := "999", style := "", total := 3, reserved := 3,
    confirmed := 0, balance := 3, allocated_qty := 3,
    allocated_boxes := [("1", 3)], note := "To invoice", missing := none }

/-- The pool left behind by the sample run. -/
def demoPool' : Pool := [("999", [("1", 1)])]

/-- Sum of the allocated quantities of the rows whose `UPC CODE` field
is `u`. -/
def rowsAllocSum : List ResultRow → String → Int
  | [], _ => 0
  | r :: rs, u =>
    (if r.upc_code = u then r.allocated_qty else 0) + rowsAllocSum rs u

/-- Order line with raw UPC `"0042"` for the C10 witness. -/
def lineA : OrderLine :=
  { upc := "0042", total := 0, reserved := 0, confirmed := 0, balance := 0 }

/-- Order line with raw UPC `"42"` for the C10 witness. -/
def lineB : OrderLine :=
  { upc := "42", total := 0, reserved := 0, confirmed := 0, balance := 0 }

/-- Row emitted for `lineA` against an empty ledger. -/
def rowA : ResultRow :=
  { order_no := "", upc_code := "42", style := "", total := 0, reserved := 0,
    confirmed := 0, balance := 0, allocated_qty := 0, allocated_boxes := [],
    note := "", missing := none }

/-- Row emitted for `lineB` against an empty ledger. -/
def rowB : ResultRow :=
  { order_no := "", upc_code := "42", style := "", total := 0, reserved := 0,
    confirmed := 0, balance := 0, allocated_qty := 0, allocated_boxes := [],
    note := "", missing := none }

/-- Numeric value of a list of ASCII digits. -/
def digitsVal (ds : List Char) : Int :=
  ds.foldl (fun n c => n * 10 + ((c.toNat : Int) - 48)) 0

/-- Python `int(s)` on a string: surrounding whitespace allowed, then an
optional sign and at least one ASCII digit (the numeric-literal
underscore extension is not used by this program's inputs).  `none`
models the `ValueError`. -/
def pyInt (s : String) : Option Int :=
  match pyStrip s.data with
  | [] => none
  | '+' :: ds =>
    if !ds.isEmpty && ds.all Char.isDigit then some (digitsVal ds) else none
  | '-' :: ds =>
    if !ds.isEmpty && ds.all Char.isDigit then some (-(digitsVal ds)) else none
  | ds => if ds.all Char.isDigit then some (digitsVal ds) else none

/-- Whether `pat` begins the list `s`. -/
def isPre : List Char → List Char → Bool
  | [], _ => true
  | _ :: _, [] => false
  | p :: ps, c :: cs => p == c && isPre ps cs

/-- Fuel-driven core of Python `str.replace`: replace every
(left-to-right, non-overlapping) occurrence of `pat` by `rep`. -/
def replaceAllAux (pat rep : List Char) : Nat → List Char → List Char
  | _, [] => []
  | 0, s => s
  | fuel + 1, c :: cs =>
    if isPre pat (c :: cs) then
      rep ++ replaceAllAux pat rep fuel (cs.drop (pat.length - 1))
    else c :: replaceAllAux pat rep fuel cs

/-- Python `s.replace(pat, rep)`. -/
def pyReplace (s pat rep : String) : String :=
  String.mk (replaceAllAux pat.data rep.data s.data.length s.data)

/-- The box identifier derived from a box file name (parse_boxes, line
46): `filename.replace('BOX NO', '').replace('.TXT', '').replace('.txt', '').strip()`. -/
def deriveBoxNo (filename : String) : String :=
  pyStripS (pyReplace (pyReplace (pyReplace (filename) "BOX NO" "") ".TXT" "")
    ".txt" "")

/-- Split a character list at newlines, accumulating the current line
reversed. -/
def splitLinesAux : List Char → List Char → List (List Char)
  | [], acc => [acc.reverse]
  | c :: cs, acc =>
    if c = '\n' then acc.reverse :: splitLinesAux cs []
    else splitLinesAux cs (c :: acc)

/-- Python content.strip().splitlines() (parse_boxes, line 47), with `'\n'`
as the line terminator. -/
def linesOf (content : String) : List String :=
  (splitLinesAux (pyStrip content.data) []).map String.mk

/-- Python line.split(',', 1): the fields before and after the first comma. -/
def splitFirstComma : List Char → List Char × List Char
  | [] => ([], [])
  | c :: cs =>
    if c = ',' then ([], cs)
    else ((c :: (splitFirstComma cs).1), (splitFirstComma cs).2)

/-- Dictionary accumulation boxes[code][box_no] += qty on the
sub-mapping, appending a fresh key in insertion order. -/
def addToSub (sub : SubPool) (box_no : String) (qty : Int) : SubPool :=
  match alookup sub box_no with
  | none => sub ++ [(box_no, qty)]
  | some q => aset sub box_no (q + qty)

/-- One accumulation step of parse_boxes (lines 52-54). -/
def addScan (boxes : Pool) (code box_no : String) (qty : Int) : Pool :=
  match alookup boxes code with
  | none => boxes ++ [(code, [(box_no, qty)])]
  | some sub => aset boxes code (addToSub sub box_no qty)

/-- The per-line loop of parse_boxes (lines 47-54): a line is a data
line iff it contains a comma; the field after the first comma must
parse as an integer, and a failure (`ValueError` from `int`) aborts the
whole parse — there is no per-line recovery in the source. -/
def parseBoxLines (box_no : String) : List String → Pool → Except String Pool
  | [], boxes => .ok boxes
  | ln :: rest, boxes =>
    if ln.data.contains ',' then
      match pyInt (String.mk (splitFirstComma (pyStrip ln.data)).2) with
      | none =>
        .error ("invalid literal for int() with base 10: " ++
          String.mk (splitFirstComma (pyStrip ln.data)).2)
      | some qty =>
        parseBoxLines box_no rest
          (addScan boxes
            (normalize_upc (String.mk (splitFirstComma (pyStrip ln.data)).1))
            box_no qty)
    else parseBoxLines box_no rest boxes

/-- parse_boxes over the remaining files, with the ledger built so
far. -/
def parseBoxesFrom : List (String × String) → Pool → Except String Pool
  | [], boxes => .ok boxes
  | fc :: rest, boxes =>
    match parseBoxLines (deriveBoxNo fc.1) (linesOf fc.2) boxes with
    | .error e => .error e
    | .ok b' => parseBoxesFrom rest b'

/-- The builder parse_boxes (packing_checker.py, lines 42-55): build the box
ledger from (filename, content) pairs; an uncaught `ValueError` on any
data line aborts the whole run (its caller `main` only catches the
empty-orders error). -/
def parse_boxes (files : List (String × String)) : Except String Pool :=
  parseBoxesFrom files []

/-- The helper colkey from parse_orders (line 32):
`s.strip().replace(" ", "").replace("_", "").upper()`, with ASCII
upper-casing. -/
def colkey (s : String) : String :=
  String.mk ((pyReplace (pyReplace (pyStripS s) " " "") "_" "").data.map
    Char.toUpper)

/-- The UPC column search of parse_orders (lines 33-37): the first
column whose key is `UPCCODE` or `UPC`; `None` when no column
matches. -/
def findUpcCol (cols : List String) : Option String :=
  cols.find? fun c => colkey c == "UPCCODE" || colkey c == "UPC"

/-- The four numeric columns cast by parse_orders (line 38). -/
def numericNames : List String := ["TOTAL", "RESERVED", "CONFIRMED", "BALANCE"]

/-- Validation of orders[c].astype(int) for one column: `KeyError` when the column
is absent, `ValueError` when a cell does not parse as an integer. -/
def validateCol (cols : List String) (rows : List (List String))
    (c : String) : Except String Unit :=
  match cols.findIdx? fun x => x == c with
  | none => .error ("KeyError: " ++ c)
  | some i =>
    if rows.all fun r => (r[i]?.bind fun v => pyInt v).isSome then .ok ()
    else .error ("invalid literal for int() in column " ++ c)

/-- The numeric casts of parse_orders (lines 38-39), first failure
winning. -/
def validateCols (cols : List String) (rows : List (List String)) :
    List String → Except String Unit
  | [] => .ok ()
  | c :: rest =>
    match validateCol cols rows c with
    | .error e => .error e
    | .ok _ => validateCols cols rows rest

/-- The loader parse_orders (packing_checker.py, lines 28-40) on tabular text
already split into a header and rows of cells: strip the column names,
search for the UPC column (returning `None` when absent — no error is
raised for it), and cast the four numeric columns, whose failures are
the only errors this function can raise. -/
def parse_orders (header : List String) (rows : List (List String)) :
    Except String (List (List String) × Option String) :=
  match validateCols (header.map pyStripS) rows numericNames with
  | .error e => .error e
  | .ok _ => .ok (rows, findUpcCol (header.map pyStripS))

/-- Per-row update of `complete` in `order_status_page` (lines
273-289): `complete` survives a row iff the row's branch does not set
it to `False`.  Rows with `needed <= 0` take the `else` branch
("Not Available in Stock"), which always clears `complete`. -/
def rowKeepsComplete (needed found : Int) : Bool :=
  if needed > 0 then
    if found = needed then true
    else if found = 0 then false
    else if 0 < found ∧ found < needed then false
    else if found > needed then true
    else true
  else false

/-- The completion verdict of `order_status_page` for the rows of one
order: `complete` starts `True` and is cleared by any offending row;
`found` is the total scanned quantity of the row's normalized UPC. -/
def order_complete (rows : List OrderLine) (boxes : Pool) : Bool :=
  rows.foldl
    (fun comp row =>
      comp && rowKeepsComplete row.reserved
        (poolQty boxes (normalize_upc row.upc)))
    true

/-- Modelled from the spec: per-order completion as the spec words it
(§4.6), "all lines' allocated or scanned >= reserved", with the
scanned totals the code uses. -/
def specComplete (rows : List OrderLine) (boxes : Pool) : Bool :=
  rows.all fun row =>
    decide (row.reserved ≤ poolQty boxes (normalize_upc row.upc))

/-- Evaluating dropWhile over an appended singleton, by cases on the
result on the left part. -/
theorem dropWhile_append_singleton [DecidableEq α] (p : α → Bool) (a : α) :
    ∀ l : List α, List.dropWhile p (l ++ [a]) =
      if List.dropWhile p l = [] then List.dropWhile p [a]
      else List.dropWhile p l ++ [a] := by
  intro l
  induction l with
  | nil => simp
  | cons x l ih =>
    by_cases h : p x
    · simpa [List.dropWhile_cons, h] using ih
    · simp [List.dropWhile_cons, h]

/-- Removing a leading run and removing a trailing run commute. -/
theorem dropWhile_rdropWhile [DecidableEq α] (p : α → Bool) (l : List α) :
    List.dropWhile p (List.rdropWhile p l) =
      List.rdropWhile p (List.dropWhile p l) := by
  induction l using List.reverseRecOn with
  | nil => simp [List.rdropWhile_nil]
  | append_singleton l a ih =>
    by_cases h : p a
    · rw [List.rdropWhile_concat_pos _ _ a h, ih, dropWhile_append_singleton]
      by_cases h0 : List.dropWhile p l = []
      · simp [h0, List.dropWhile_cons, h, List.rdropWhile_nil]
      · rw [if_neg h0, List.rdropWhile_concat_pos _ _ a h]
    · rw [List.rdropWhile_concat_neg _ _ a h, dropWhile_append_singleton]
      by_cases h0 : List.dropWhile p l = []
      · simp [h0, List.dropWhile_cons, h, List.rdropWhile_singleton]
      · rw [if_neg h0, List.rdropWhile_concat_neg _ _ a h]

/-- Python `strip` is idempotent. -/
theorem pyStrip_idem (l : List Char) : pyStrip (pyStrip l) = pyStrip l := by
  unfold pyStrip
  rw [dropWhile_rdropWhile, List.dropWhile_idempotent, List.rdropWhile_idempotent]

/-- Applying lstrip('0') to an all-zero list gives the empty list. -/
theorem lstripZeros_replicate (n : Nat) :
    lstripZeros (List.replicate n '0') = [] := by
  simp [lstripZeros, List.dropWhile_eq_nil_iff, List.eq_of_mem_replicate]

/-- Applying lstrip('0') does nothing when the first character is not `'0'`. -/
theorem lstripZeros_eq_self (l : List Char) (h : l.head? ≠ some '0') :
    lstripZeros l = l := by
  cases l with
  | nil => rfl
  | cons a t =>
    have ha : ¬ (a == '0') = true := by
      simp only [List.head?] at h
      simpa using fun hc => h (by rw [hc])
    simp [lstripZeros, List.dropWhile_cons, ha]

/-- C6 (counterexample): `normalize_upc` is NOT idempotent on every string.
The code strips leading zeros BEFORE trimming whitespace, so `" 0a"`
normalizes to `"0a"`, which normalizes again to `"a"`. -/
theorem normalize_upc_not_idempotent_cex :
    normalize_upc (normalize_upc (" 0a")) ≠ normalize_upc (" 0a") := by decide

/-- C6 (amended): `normalize_upc` is idempotent on every string whose
normalization does not itself begin with `'0'` (in particular on every
whitespace-free string); the empty string and all-zero strings
normalize to the empty string. -/
theorem normalize_upc_idempotent (s : String)
    (h : (normalize_upc s).data.head? ≠ some '0') :
    normalize_upc (normalize_upc s) = normalize_upc s ∧
      normalize_upc ("") = "" ∧
      ∀ n : Nat, normalize_upc (String.mk (List.replicate n '0')) = "" := by
  refine ⟨?_, rfl, ?_⟩
  · have h' : (pyStrip (lstripZeros s.data)).head? ≠ some '0' := h
    show String.mk (pyStrip (lstripZeros (pyStrip (lstripZeros s.data)))) =
      normalize_upc s
    rw [lstripZeros_eq_self _ h', pyStrip_idem]
    rfl
  · intro n
    show String.mk (pyStrip (lstripZeros (List.replicate n '0'))) = ""
    rw [lstripZeros_replicate]
    rfl

/-- C6 (amended, witness): instantiated at `"12ab"`. -/
theorem normalize_upc_idempotent_witness :
    normalize_upc (normalize_upc ("12ab")) = normalize_upc ("12ab") :=
  (normalize_upc_idempotent ("12ab") (by decide)).1

/-- C4: the code's classifier agrees, on every input, with first-match
evaluation of the six spec rules in their stated order. -/
theorem classify_eq_first_match_rules
    (scanned reserved confirmed total balance : Int) :
    classify scanned reserved confirmed total balance =
      classifySpec scanned reserved confirmed total balance := by
  simp only [classify, classifySpec, firstMatch, decide_eq_true_eq]

/-- C5 (counterexample): the iteration order is NOT defined on a set of
box-ids mixing a numeric id with a non-numeric one — Python raises
`TypeError` there, modelled as `none`. -/
theorem sortBoxIds_mixed_cex : sortBoxIds ["1", "A"] = none := by decide

/-- C5 (amended): the box-id ordering is defined exactly on sets of
ids that do not mix digit ids with non-digit ids; it is then a
permutation of the ids, sorted numerically when all ids are digit
strings and lexicographically when none is. -/
theorem sortBoxIds_sound (l : List String) :
    (sortBoxIds l = none ↔
      ((∃ a ∈ l, pyIsDigit a) ∧ ∃ b ∈ l, ¬ pyIsDigit b)) ∧
    ∀ ids, sortBoxIds l = some ids →
      ids.Perm l ∧
      ((∀ a ∈ l, pyIsDigit a) → ids.Sorted numLe) ∧
      ((∀ a ∈ l, ¬ pyIsDigit a) → ids.Sorted (· ≤ ·)) := by
  by_cases hmix :
      ((l.any fun s => pyIsDigit s) && (l.any fun s => !pyIsDigit s)) = true
  · constructor
    · rw [sortBoxIds, if_pos hmix]
      simp only [true_iff]
      simpa [List.any_eq_true] using hmix
    · intro ids hids
      rw [sortBoxIds, if_pos hmix] at hids
      exact absurd hids (by simp)
  · have hnotmix : ¬ ((∃ a ∈ l, pyIsDigit a) ∧ ∃ b ∈ l, ¬ pyIsDigit b) := by
      intro hex
      exact hmix (by simpa [List.any_eq_true] using hex)
    by_cases hall : (l.all fun s => pyIsDigit s) = true
    · rw [sortBoxIds, if_neg hmix, if_pos hall]
      refine ⟨⟨fun hno => absurd hno (by simp), fun hex => absurd hex hnotmix⟩,
        fun ids hids => ?_⟩
      obtain rfl : List.insertionSort numLe l = ids := by
        simpa using hids
      refine ⟨List.perm_insertionSort _ _, fun _ => List.sorted_insertionSort _ _,
        fun hnone => ?_⟩
      cases l with
      | nil => simp
      | cons x t =>
        exact absurd (by simpa using List.all_eq_true.mp hall x (by simp))
          (by simpa using hnone x (by simp))
    · rw [sortBoxIds, if_neg hmix, if_neg hall]
      refine ⟨⟨fun hno => absurd hno (by simp), fun hex => absurd hex hnotmix⟩,
        fun ids hids => ?_⟩
      obtain rfl : List.insertionSort (· ≤ ·) l = ids := by
        simpa using hids
      exact ⟨List.perm_insertionSort _ _,
        fun hdig => absurd (List.all_eq_true.mpr fun x hx => hdig x hx) hall,
        fun _ => List.sorted_insertionSort _ _⟩

/-- C5 (amended, witness): on the all-digit set `["10", "2"]` the order
is defined and numeric. -/
theorem sortBoxIds_sound_witness :
    (["2", "10"] : List String).Perm ["10", "2"] ∧
      (["2", "10"] : List String).Sorted numLe :=
  ⟨((sortBoxIds_sound ["10", "2"]).2 ["2", "10"] (by decide)).1,
    ((sortBoxIds_sound ["10", "2"]).2 ["2", "10"] (by decide)).2.1 (by decide)⟩

theorem alookup_aset_ne {β : Type} (l : List (String × β)) (k k' : String)
    (v : β) (h : k' ≠ k) : alookup (aset l k v) k' = alookup l k' := by
  induction l with
  | nil => rfl
  | cons e t ih =>
    by_cases he : e.1 = k
    · simp only [aset, List.map_cons, if_pos he, alookup]
      rw [if_neg (fun hk : k = k' => h hk.symm),
        if_neg (fun hk : e.1 = k' => h (he.symm.trans hk).symm)]
      exact ih
    · simp only [aset, List.map_cons, if_neg he, alookup]
      by_cases he' : e.1 = k'
      · simp [he']
      · simp only [if_neg he']
        exact ih

theorem alookup_aset_self {β : Type} (l : List (String × β)) (k : String)
    (v : β) : alookup (aset l k v) k = (alookup l k).map fun _ => v := by
  induction l with
  | nil => rfl
  | cons e t ih =>
    by_cases he : e.1 = k
    · simp [aset, alookup, he]
    · simp only [aset, List.map_cons, if_neg he, alookup, if_neg he]
      exact ih

theorem keys_aset {β : Type} (l : List (String × β)) (k : String) (v : β) :
    ((aset l k v).map fun e => e.1) = l.map fun e => e.1 := by
  induction l with
  | nil => rfl
  | cons e t ih =>
    by_cases he : e.1 = k
    · simpa [aset, he] using ih
    · simpa [aset, he] using ih

theorem aset_of_not_mem {β : Type} (l : List (String × β)) (k : String)
    (v : β) (h : k ∉ l.map fun e => e.1) : aset l k v = l := by
  induction l with
  | nil => rfl
  | cons e t ih =>
    simp only [List.map_cons, List.mem_cons, not_or] at h
    simp only [aset, List.map_cons, if_neg (fun he : e.1 = k => h.1 he.symm)]
    exact congrArg (List.cons e) (ih h.2)

theorem alookup_mem {β : Type} {l : List (String × β)} {k : String} {v : β}
    (h : alookup l k = some v) : (k, v) ∈ l := by
  induction l with
  | nil => exact absurd h (by simp [alookup])
  | cons e t ih =>
    by_cases he : e.1 = k
    · rw [alookup, if_pos he] at h
      exact List.mem_cons.mpr (Or.inl (by cases e; cases h; simp_all))
    · rw [alookup, if_neg he] at h
      exact List.mem_cons.mpr (Or.inr (ih h))

theorem mem_aset {β : Type} {l : List (String × β)} {k : String} {v : β}
    {e : String × β} (h : e ∈ aset l k v) : e ∈ l ∨ e = (k, v) := by
  obtain ⟨x, hx, hfx⟩ := List.mem_map.mp h
  by_cases hxk : x.1 = k
  · rw [if_pos hxk] at hfx
    exact Or.inr hfx.symm
  · rw [if_neg hxk] at hfx
    exact Or.inl (hfx ▸ hx)

theorem subTotal_nonneg (s : SubPool) (h : ∀ x ∈ s, 0 ≤ x.2) :
    0 ≤ subTotal s := by
  induction s with
  | nil => simp [subTotal]
  | cons e t ih =>
    have := h e (by simp)
    have ht := ih fun x hx => h x (by simp [hx])
    simp only [subTotal, List.map_cons, List.sum_cons] at ht ⊢
    omega

theorem alookup_getD_nonneg (s : SubPool) (h : ∀ x ∈ s, 0 ≤ x.2)
    (k : String) : 0 ≤ (alookup s k).getD 0 := by
  cases hk : alookup s k with
  | none => simp
  | some v => simpa using h (k, v) (alookup_mem hk)

theorem subTotal_aset (s : SubPool) (k : String) (v q : Int)
    (hnd : (s.map fun x => x.1).Nodup) (hq : alookup s k = some q) :
    subTotal (aset s k v) = subTotal s - q + v := by
  induction s with
  | nil => exact absurd hq (by simp [alookup])
  | cons e t ih =>
    simp only [List.map_cons, List.nodup_cons] at hnd
    by_cases he : e.1 = k
    · rw [alookup, if_pos he] at hq
      have ht : aset t k v = t :=
        aset_of_not_mem t k v (he ▸ hnd.1)
      simp only [aset, List.map_cons, if_pos he, subTotal, List.sum_cons]
      rw [show (t.map fun x => if x.1 = k then (k, v) else x) = aset t k v
          from rfl, ht]
      cases hq
      omega
    · rw [alookup, if_neg he] at hq
      have := ih hnd.2 hq
      simp only [aset, List.map_cons, if_neg he, subTotal, List.sum_cons] at this ⊢
      omega

/-- The scanned total of the draw loop is the sum of its recorded
draws. -/
theorem draw_scanned_eq_sum (ids : List String) :
    ∀ (sub : SubPool) (need : Int),
      (drawFromBoxes ids sub need).2.1 =
        ((drawFromBoxes ids sub need).1.map fun e => e.2).sum := by
  induction ids with
  | nil => intro sub need; simp [drawFromBoxes]
  | cons b rest ih =>
    intro sub need
    simp only [drawFromBoxes]
    split_ifs with h1 h2 h3
    · simp
    · simp [ih]
    · simp
    · exact ih sub need

/-- The draw loop never changes the set of box-ids of the sub-mapping. -/
theorem draw_keys (ids : List String) :
    ∀ (sub : SubPool) (need : Int),
      ((drawFromBoxes ids sub need).2.2.map fun x => x.1) =
        sub.map fun x => x.1 := by
  induction ids with
  | nil => intro sub need; rfl
  | cons b rest ih =>
    intro sub need
    simp only [drawFromBoxes]
    split_ifs with h1 h2 h3
    · exact keys_aset sub b _
    · rw [ih, keys_aset]
    · rfl
    · exact ih sub need

/-- The draw loop keeps all remaining quantities nonnegative. -/
theorem draw_vals_nonneg (ids : List String) :
    ∀ (sub : SubPool) (need : Int), (∀ x ∈ sub, 0 ≤ x.2) →
      ∀ x ∈ (drawFromBoxes ids sub need).2.2, 0 ≤ x.2 := by
  induction ids with
  | nil => intro sub need h; exact h
  | cons b rest ih =>
    intro sub need hvals
    have hq0 : 0 ≤ (alookup sub b).getD 0 := alookup_getD_nonneg sub hvals b
    simp only [drawFromBoxes]
    split_ifs with h1 h2 h3
    · intro x hx
      rcases mem_aset hx with hmem | rfl
      · exact hvals x hmem
      · simp only
        omega
    · refine ih _ _ fun x hx => ?_
      rcases mem_aset hx with hmem | rfl
      · exact hvals x hmem
      · simp only
        omega
    · exact hvals
    · exact ih sub need hvals

/-- The scanned total of the draw loop is nonnegative. -/
theorem draw_scanned_nonneg (ids : List String) :
    ∀ (sub : SubPool) (need : Int), 0 ≤ (drawFromBoxes ids sub need).2.1 := by
  induction ids with
  | nil => intro sub need; simp [drawFromBoxes]
  | cons b rest ih =>
    intro sub need
    simp only [drawFromBoxes]
    split_ifs with h1 h2 h3
    · simp only
      omega
    · have := ih (aset sub b ((alookup sub b).getD 0 -
        min need ((alookup sub b).getD 0))) (need - min need ((alookup sub b).getD 0))
      simp only at this ⊢
      omega
    · simp
    · exact ih sub need

/-- Conservation: the draw loop removes from the sub-mapping exactly
what it scans. -/
theorem draw_subTotal (ids : List String) :
    ∀ (sub : SubPool) (need : Int), (sub.map fun x => x.1).Nodup →
      subTotal (drawFromBoxes ids sub need).2.2 =
        subTotal sub - (drawFromBoxes ids sub need).2.1 := by
  induction ids with
  | nil => intro sub need _; simp [drawFromBoxes]
  | cons b rest ih =>
    intro sub need hnd
    simp only [drawFromBoxes]
    split_ifs with h1 h2 h3
    · obtain ⟨hq, _⟩ := h1
      cases hlk : alookup sub b with
      | none => rw [hlk] at hq; simp at hq
      | some q =>
        simp only [Option.getD_some] at hq h2 ⊢
        rw [subTotal_aset sub b _ q hnd hlk]
        omega
    · obtain ⟨hq, _⟩ := h1
      cases hlk : alookup sub b with
      | none => rw [hlk] at hq; simp at hq
      | some q =>
        simp only [Option.getD_some] at hq h2 ⊢
        have hnd' : ((aset sub b (q - min need q)).map fun x => x.1).Nodup := by
          rw [keys_aset]; exact hnd
        rw [ih _ _ hnd', subTotal_aset sub b _ q hnd hlk]
        omega
    · simp
    · exact ih sub need hnd

/-- The scanned total of the draw loop is
`min(need, total quantity reachable through the visited box-ids)`. -/
theorem draw_scanned_min (ids : List String) :
    ∀ (sub : SubPool) (need : Int), 0 ≤ need → (∀ x ∈ sub, 0 ≤ x.2) →
      ids.Nodup →
      (drawFromBoxes ids sub need).2.1 =
        min need ((ids.map fun b => (alookup sub b).getD 0).sum) := by
  induction ids with
  | nil => intro sub need hneed _ _; simp [drawFromBoxes]; omega
  | cons b rest ih =>
    intro sub need hneed hvals hnd
    have hbrest : b ∉ rest := (List.nodup_cons.mp hnd).1
    have hrest : rest.Nodup := (List.nodup_cons.mp hnd).2
    have hq0 : 0 ≤ (alookup sub b).getD 0 := alookup_getD_nonneg sub hvals b
    have hS0 : 0 ≤ (rest.map fun b' => (alookup sub b').getD 0).sum :=
      List.sum_nonneg fun x hx => by
        obtain ⟨b', _, rfl⟩ := List.mem_map.mp hx
        exact alookup_getD_nonneg sub hvals b'
    simp only [List.map_cons, List.sum_cons]
    simp only [drawFromBoxes]
    split_ifs with h1 h2 h3
    · obtain ⟨hq1, hn1⟩ := h1
      simp only
      omega
    · obtain ⟨hq1, hn1⟩ := h1
      have hmaps : (rest.map fun b' =>
          (alookup (aset sub b ((alookup sub b).getD 0 -
            min need ((alookup sub b).getD 0))) b').getD 0) =
          rest.map fun b' => (alookup sub b').getD 0 :=
        List.map_congr_left fun b' hb' => by
          rw [alookup_aset_ne _ _ _ _ fun hbb : b' = b => hbrest (hbb ▸ hb')]
      have ih' := ih (aset sub b ((alookup sub b).getD 0 -
          min need ((alookup sub b).getD 0)))
        (need - min need ((alookup sub b).getD 0))
        (by omega)
        (fun x hx => by
          rcases mem_aset hx with hmem | rfl
          · exact hvals x hmem
          · simp only
            omega)
        hrest
      rw [hmaps] at ih'
      simp only at ih' ⊢
      rw [ih']
      omega
    · simp only
      omega
    · have ih' := ih sub need hneed hvals hrest
      simp only at ih' ⊢
      rw [ih']
      have hqz : (alookup sub b).getD 0 = 0 := by
        rcases not_and_or.mp h1 with hc | hc
        · omega
        · omega
      omega

/-- Summing lookups over the key list of a duplicate-free sub-mapping
gives its total. -/
theorem sum_alookup_keys (sub : SubPool)
    (hnd : (sub.map fun x => x.1).Nodup) :
    (((sub.map fun x => x.1).map fun b => (alookup sub b).getD 0).sum) =
      subTotal sub := by
  induction sub with
  | nil => rfl
  | cons e t ih =>
    simp only [List.map_cons, List.nodup_cons] at hnd
    have hhead : (alookup (e :: t) e.1).getD 0 = e.2 := by
      simp [alookup]
    have htail : ((t.map fun x => x.1).map fun b => (alookup (e :: t) b).getD 0) =
        (t.map fun x => x.1).map fun b => (alookup t b).getD 0 :=
      List.map_congr_left fun b hb => by
        rw [alookup, if_neg fun he : e.1 = b => hnd.1 (he.symm ▸ hb)]
    simp only [List.map_cons, List.sum_cons, hhead, htail, ih hnd.2, subTotal]

/-- A sort that succeeded returns a permutation of the box-ids. -/
theorem sortBoxIds_perm {l ids : List String} (h : sortBoxIds l = some ids) :
    ids.Perm l := by
  rw [sortBoxIds] at h
  split_ifs at h with h1 h2
  · obtain rfl : List.insertionSort numLe l = ids := by simpa using h
    exact List.perm_insertionSort _ _
  · obtain rfl : List.insertionSort (· ≤ ·) l = ids := by simpa using h
    exact List.perm_insertionSort _ _

/-- The `UPC CODE` field of every produced row is the normalized UPC of
its order line. -/
theorem allocateLine_upc_code {pool : Pool} {line : OrderLine}
    {row : ResultRow} {pool' : Pool}
    (h : allocateLine pool line = some (row, pool')) :
    row.upc_code = normalize_upc line.upc := by
  rw [allocateLine] at h
  cases hlk : alookup pool (normalize_upc line.upc) with
  | none =>
    simp only [hlk] at h
    cases h
    rfl
  | some sub =>
    simp only [hlk] at h
    cases hsort : sortBoxIds (sub.map fun x => x.1) with
    | none => simp [hsort] at h
    | some ids =>
      simp only [hsort] at h
      cases h
      rfl

/-- Total stock is nonnegative in a well-formed pool. -/
theorem poolQty_nonneg (p : Pool) (hWF : WFPool p) (u : String) :
    0 ≤ poolQty p u := by
  rw [poolQty]
  cases hlk : alookup p u with
  | none => simp
  | some s => exact subTotal_nonneg s (hWF.2 (u, s) (alookup_mem hlk)).2

/-- Processing one line preserves well-formedness of the pool. -/
theorem allocateLine_wf {pool : Pool} {line : OrderLine} {row : ResultRow}
    {pool' : Pool} (hWF : WFPool pool)
    (h : allocateLine pool line = some (row, pool')) : WFPool pool' := by
  rw [allocateLine] at h
  cases hlk : alookup pool (normalize_upc line.upc) with
  | none =>
    simp only [hlk] at h
    cases h
    exact hWF
  | some sub =>
    simp only [hlk] at h
    cases hsort : sortBoxIds (sub.map fun x => x.1) with
    | none => simp [hsort] at h
    | some ids =>
      simp only [hsort] at h
      cases h
      have hsub := hWF.2 _ (alookup_mem hlk)
      constructor
      · rw [keys_aset]
        exact hWF.1
      · intro e he
        rcases mem_aset he with hmem | rfl
        · exact hWF.2 e hmem
        · refine ⟨?_, ?_⟩
          · rw [draw_keys]
            exact hsub.1
          · exact draw_vals_nonneg ids sub line.reserved hsub.2

/-- Processing one line decreases the pool by exactly the allocated
quantity at the line's UPC and leaves every other UPC untouched. -/
theorem allocateLine_poolQty {pool : Pool} {line : OrderLine}
    {row : ResultRow} {pool' : Pool} (hWF : WFPool pool)
    (h : allocateLine pool line = some (row, pool')) (u : String) :
    poolQty pool' u =
      poolQty pool u - (if row.upc_code = u then row.allocated_qty else 0) := by
  rw [allocateLine] at h
  cases hlk : alookup pool (normalize_upc line.upc) with
  | none =>
    simp only [hlk] at h
    cases h
    simp only [mkRow]
    split_ifs <;> simp
  | some sub =>
    simp only [hlk] at h
    cases hsort : sortBoxIds (sub.map fun x => x.1) with
    | none => simp [hsort] at h
    | some ids =>
      simp only [hsort] at h
      cases h
      have hsub := hWF.2 _ (alookup_mem hlk)
      simp only [mkRow]
      by_cases hu : normalize_upc line.upc = u
      · subst hu
        rw [if_pos rfl]
        simp only [poolQty, alookup_aset_self, hlk, Option.map_some']
        exact draw_subTotal ids sub line.reserved hsub.1
      · rw [if_neg hu]
        simp only [poolQty,
          alookup_aset_ne _ _ _ _ fun hup : u = normalize_upc line.upc =>
            hu hup.symm]
        omega

/-- C1: for every order line processed by the allocation engine against
a well-formed pool (nonnegative box quantities, duplicate-free dict
keys) and with the data model's nonnegative `reserved`, the line's
allocated quantity equals the sum of its recorded draws and equals
`min(reserved, stock remaining in the pool for the line's normalized
UPC at the moment it is processed)`. -/
theorem allocated_qty_eq_sum_and_min (pool : Pool) (line : OrderLine)
    (row : ResultRow) (pool' : Pool) (hWF : WFPool pool)
    (hres : 0 ≤ line.reserved)
    (h : allocateLine pool line = some (row, pool')) :
    row.allocated_qty = (row.allocated_boxes.map fun e => e.2).sum ∧
      row.allocated_qty =
        min line.reserved (poolQty pool (normalize_upc line.upc)) := by
  rw [allocateLine] at h
  cases hlk : alookup pool (normalize_upc line.upc) with
  | none =>
    simp only [hlk] at h
    cases h
    refine ⟨rfl, ?_⟩
    simp only [mkRow, poolQty, hlk]
    omega
  | some sub =>
    simp only [hlk] at h
    cases hsort : sortBoxIds (sub.map fun x => x.1) with
    | none => simp [hsort] at h
    | some ids =>
      simp only [hsort] at h
      cases h
      have hsub := hWF.2 _ (alookup_mem hlk)
      have hperm : ids.Perm (sub.map fun x => x.1) := sortBoxIds_perm hsort
      constructor
      · simpa [mkRow] using draw_scanned_eq_sum ids sub line.reserved
      · have hmin := draw_scanned_min ids sub line.reserved hres hsub.2
          (hperm.nodup_iff.mpr hsub.1)
        have hsum : (ids.map fun b => (alookup sub b).getD 0).sum =
            subTotal sub := by
          rw [(hperm.map fun b => (alookup sub b).getD 0).sum_eq,
            sum_alookup_keys sub hsub.1]
        simp only [mkRow, poolQty, hlk]
        rw [hmin, hsum]

/-- C1 (witness): the invariant instantiated on the sample run. -/
theorem allocated_qty_eq_sum_and_min_witness :
    demoRow.allocated_qty = (demoRow.allocated_boxes.map fun e => e.2).sum ∧
      demoRow.allocated_qty =
        min demoLine.reserved (poolQty demoPool (normalize_upc demoLine.upc)) :=
  allocated_qty_eq_sum_and_min demoPool demoLine demoRow demoPool'
    (by decide) (by decide) (by decide)

/-- C2: over a whole allocation run on a well-formed box ledger, the
total quantity allocated to order lines of any one UPC never exceeds
the total scanned quantity recorded for that UPC in the ledger. -/
theorem alloc_sum_le_scanned (orders : List OrderLine) :
    ∀ (pool : Pool) (rows : List ResultRow), WFPool pool →
      main_results_page pool orders = some rows →
      ∀ u : String, rowsAllocSum rows u ≤ poolQty pool u := by
  induction orders with
  | nil =>
    intro pool rows hWF h u
    cases h
    simpa [rowsAllocSum] using poolQty_nonneg pool hWF u
  | cons l ls ih =>
    intro pool rows hWF h u
    rw [main_results_page] at h
    cases hal : allocateLine pool l with
    | none => simp [hal] at h
    | some rp =>
      obtain ⟨row, pool'⟩ := rp
      simp only [hal] at h
      cases hrec : main_results_page pool' ls with
      | none => simp [hrec] at h
      | some rows' =>
        simp only [hrec, Option.map_some'] at h
        cases h
        have hle := ih pool' rows' (allocateLine_wf hWF hal) hrec u
        have hq := allocateLine_poolQty hWF hal u
        simp only [rowsAllocSum]
        by_cases hcase : row.upc_code = u
        · rw [if_pos hcase] at hq ⊢
          omega
        · rw [if_neg hcase] at hq ⊢
          omega

/-- C2 (witness): instantiated on the sample run. -/
theorem alloc_sum_le_scanned_witness :
    rowsAllocSum [demoRow] ("999") ≤ poolQty demoPool ("999") :=
  alloc_sum_le_scanned [demoLine] demoPool [demoRow] (by decide) (by decide)
    ("999")

/-- C3: first-come-first-served competition for the shared pool
(spec Scenario C).  Two order lines with UPC 999 each reserve 3 against
a single box holding 4: the first line draws 3 and is "To invoice"; the
second only sees the remaining 1, draws it, and is
"To unreserve and invoice (missing: 2)". -/
theorem scenario_c_first_come_first_served :
    main_results_page [("999", [("1", 4)])]
        [{ upc := "999", total := 3, reserved := 3, confirmed := 0,
           balance := 3 },
         { upc := "999", total := 3, reserved := 3, confirmed := 0,
           balance := 3 }] =
      some
        [{ order_no := "", upc_code := "999", style := "", total := 3,
           reserved := 3, confirmed := 0, balance := 3, allocated_qty := 3,
           allocated_boxes := [("1", 3)], note := "To invoice",
           missing := none },
         { order_no := "", upc_code := "999", style := "", total := 3,
           reserved := 3, confirmed := 0, balance := 3, allocated_qty := 1,
           allocated_boxes := [("1", 1)],
           note := "To unreserve and invoice (missing: 2)",
           missing := some 2 }] := by
  decide

/-- Prepending zeros is invisible to `lstrip('0')`. -/
theorem lstripZeros_replicate_append (n : Nat) (l : List Char) :
    lstripZeros (List.replicate n '0' ++ l) = lstripZeros l := by
  induction n with
  | zero => simp
  | succ n _ => simp [List.replicate_succ, lstripZeros, List.dropWhile_cons]

/-- Prepending zeros does not change a normalized UPC. -/
theorem normalize_upc_mk_zeros (n : Nat) (l : List Char) :
    normalize_upc (String.mk (List.replicate n '0' ++ l)) =
      normalize_upc (String.mk l) := by
  unfold normalize_upc
  rw [show (String.mk (List.replicate n '0' ++ l)).data =
    List.replicate n '0' ++ l from rfl, lstripZeros_replicate_append]

/-- C10: the `UPC CODE` field of every row the engine emits is the
normalized UPC of its order line, so two lines whose raw UPCs differ
only in leading zeros get identical `UPC CODE` values. -/
theorem upc_code_is_normalized (p₁ p₂ : Pool) (l₁ l₂ : OrderLine)
    (r₁ r₂ : ResultRow) (q₁ q₂ : Pool) (n m : Nat) (t : String)
    (h₁ : allocateLine p₁ l₁ = some (r₁, q₁))
    (h₂ : allocateLine p₂ l₂ = some (r₂, q₂))
    (hu₁ : l₁.upc = String.mk (List.replicate n '0' ++ t.data))
    (hu₂ : l₂.upc = String.mk (List.replicate m '0' ++ t.data)) :
    r₁.upc_code = normalize_upc l₁.upc ∧
      r₂.upc_code = normalize_upc l₂.upc ∧ r₁.upc_code = r₂.upc_code := by
  have e₁ := allocateLine_upc_code h₁
  have e₂ := allocateLine_upc_code h₂
  refine ⟨e₁, e₂, ?_⟩
  rw [e₁, e₂, hu₁, hu₂, normalize_upc_mk_zeros, normalize_upc_mk_zeros]

/-- C10 (witness): `"0042"` and `"42"` produce the same `UPC CODE`. -/
theorem upc_code_is_normalized_witness :
    rowA.upc_code = normalize_upc lineA.upc ∧
      rowB.upc_code = normalize_upc lineB.upc ∧
      rowA.upc_code = rowB.upc_code :=
  upc_code_is_normalized [] [] lineA lineB rowA rowB [] [] 2 0 ("42")
    (by decide) (by decide) (by decide) (by decide)

/-- C7 (counterexample): a single malformed quantity line makes the
whole parse fail — the valid lines before and after it, and all other
data, are lost; the run does not continue. -/
theorem parse_boxes_no_recovery_cex :
    parse_boxes [("BOX NO 1.TXT", "111,2\nbad,xx\n222,3")] =
      Except.error ("invalid literal for int() with base 10: xx") := by rfl

/-- A per-file parse that succeeded had a valid integer quantity on
every data line. -/
theorem parseBoxLines_ok_all_lines (box_no : String) :
    ∀ (lns : List String) (boxes B : Pool),
      parseBoxLines box_no lns boxes = .ok B →
      ∀ ln ∈ lns, ln.data.contains ',' = true →
        (pyInt (String.mk (splitFirstComma (pyStrip ln.data)).2)).isSome := by
  intro lns
  induction lns with
  | nil => intro boxes B _ ln hln; exact absurd hln (by simp)
  | cons l rest ih =>
    intro boxes B h ln hln hcomma
    rcases List.mem_cons.mp hln with rfl | hmem
    · rw [parseBoxLines, if_pos hcomma] at h
      cases hint : pyInt (String.mk (splitFirstComma (pyStrip ln.data)).2) with
      | none => rw [hint] at h; cases h
      | some q => simp [hint]
    · by_cases hc : l.data.contains ','
      · rw [parseBoxLines, if_pos hc] at h
        cases hint : pyInt (String.mk (splitFirstComma (pyStrip l.data)).2) with
        | none => rw [hint] at h; cases h
        | some q =>
          rw [hint] at h
          exact ih _ _ h ln hmem hcomma
      · rw [parseBoxLines, if_neg hc] at h
        exact ih _ _ h ln hmem hcomma

/-- C7 (amended): parse_boxes has NO per-line recovery: it returns a
ledger only when every data line of every file carries a valid integer
quantity; a single malformed quantity line aborts the whole parse, and
the caller does not catch the error. -/
theorem parse_boxes_ok_requires_all_lines_valid
    (files : List (String × String)) (B : Pool)
    (h : parse_boxes files = .ok B) :
    ∀ fc ∈ files, ∀ ln ∈ linesOf fc.2, ln.data.contains ',' = true →
      (pyInt (String.mk (splitFirstComma (pyStrip ln.data)).2)).isSome := by
  rw [parse_boxes] at h
  revert h
  generalize ([] : Pool) = boxes
  induction files generalizing boxes with
  | nil =>
    intro h fc hfc
    exact absurd hfc (by simp)
  | cons f rest ih =>
    intro h fc hfc
    rw [parseBoxesFrom] at h
    cases hfile : parseBoxLines (deriveBoxNo f.1) (linesOf f.2) boxes with
    | error e => rw [hfile] at h; cases h
    | ok b' =>
      rw [hfile] at h
      rcases List.mem_cons.mp hfc with rfl | hmem
      · exact parseBoxLines_ok_all_lines _ _ _ _ hfile
      · exact ih b' h fc hmem

/-- C7 (amended, witness): a run that succeeded on the file
`BOX NO 1.TXT` containing `111,2` indeed had a valid quantity on that
line. -/
theorem parse_boxes_ok_requires_all_lines_valid_witness :
    (pyInt (String.mk (splitFirstComma (pyStrip ("111,2" : String).data)).2)).isSome :=
  parse_boxes_ok_requires_all_lines_valid [("BOX NO 1.TXT", "111,2")]
    [("111", [("1", 2)])] (by rfl) ("BOX NO 1.TXT", "111,2") (by decide)
    ("111,2") (by decide) (by decide)

/-- C8 (counterexample): an order table without any UPC-named column is
accepted by the loader — it returns successfully with no UPC column
selected instead of failing with a `SchemaError` before allocation. -/
theorem parse_orders_missing_upc_cex :
    parse_orders ["TOTAL", "RESERVED", "CONFIRMED", "BALANCE"]
        [["1", "2", "0", "3"]] =
      Except.ok ([["1", "2", "0", "3"]], none) := by rfl

/-- C8 (amended): when no header column matches `UPC`/`UPC CODE` and
the numeric columns validate, the loader does not fail: it returns
`upc_col = None`, and the missing-UPC failure is NOT surfaced before
allocation (it only strikes when the allocation page indexes the
orders by that `None` column). -/
theorem parse_orders_none_upc_no_error (header : List String)
    (rows : List (List String))
    (hupc : findUpcCol (header.map pyStripS) = none)
    (hnum : validateCols (header.map pyStripS) rows numericNames = .ok ()) :
    parse_orders header rows = .ok (rows, none) := by
  rw [parse_orders, hnum, hupc]

/-- C8 (amended, witness): instantiated on a UPC-less header. -/
theorem parse_orders_none_upc_no_error_witness :
    parse_orders ["TOTAL", "RESERVED", "CONFIRMED", "BALANCE"]
        [["5", "6", "7", "8"]] =
      .ok ([["5", "6", "7", "8"]], none) :=
  parse_orders_none_upc_no_error ["TOTAL", "RESERVED", "CONFIRMED", "BALANCE"]
    [["5", "6", "7", "8"]] (by rfl) (by rfl)

/-- C9 (counterexample): an order whose single line has
`reserved = 0` satisfies the spec's completion condition (`0 ≥ 0`) yet
is reported INCOMPLETE by the code, whose `else` branch clears
`complete` for such rows. -/
theorem order_complete_reserved_zero_cex :
    order_complete
        [{ upc := "1", total := 0, reserved := 0, confirmed := 0,
           balance := 0 }] [] = false ∧
      specComplete
        [{ upc := "1", total := 0, reserved := 0, confirmed := 0,
           balance := 0 }] [] = true := by
  decide

/-- Folding `&&` over a list equals the conjunction of the start value
with `List.all`. -/
theorem foldl_and_eq_all (f : OrderLine → Bool) (rows : List OrderLine) :
    ∀ b : Bool, rows.foldl (fun comp r => comp && f r) b = (b && rows.all f) := by
  induction rows with
  | nil => intro b; simp
  | cons r rest ih =>
    intro b
    simp only [List.foldl_cons, List.all_cons, ih, Bool.and_assoc]

/-- A row with nonnegative scanned total keeps `complete` iff it has
positive reserved quantity fully covered by the scanned total. -/
theorem rowKeepsComplete_iff (needed found : Int) (hf : 0 ≤ found) :
    rowKeepsComplete needed found = true ↔ (0 < needed ∧ needed ≤ found) := by
  rw [rowKeepsComplete]
  split_ifs with h1 h2 h3 h4 h5 <;> simp <;> omega

/-- C9 (amended): against a well-formed box ledger, the code reports an
order COMPLETE iff every one of its rows has `reserved > 0` and scanned
total at least `reserved`; in particular a row with `reserved = 0`
always makes the order INCOMPLETE. -/
theorem order_complete_iff (rows : List OrderLine) (boxes : Pool)
    (hWF : WFPool boxes) :
    order_complete rows boxes = true ↔
      ∀ row ∈ rows, 0 < row.reserved ∧
        row.reserved ≤ poolQty boxes (normalize_upc row.upc) := by
  rw [order_complete, foldl_and_eq_all, Bool.true_and, List.all_eq_true]
  exact ⟨fun h row hr => (rowKeepsComplete_iff _ _
      (poolQty_nonneg boxes hWF _)).mp (h row hr),
    fun h row hr => (rowKeepsComplete_iff _ _
      (poolQty_nonneg boxes hWF _)).mpr (h row hr)⟩

/-- C9 (amended, witness): a one-line order with `reserved = 2` and 5
units scanned is COMPLETE. -/
theorem order_complete_iff_witness :
    order_complete
        [{ upc := "7", total := 2, reserved := 2, confirmed := 0,
           balance := 0 }] [("7", [("1", 5)])] = true :=
  (order_complete_iff
      [{ upc := "7", total := 2, reserved := 2, confirmed := 0,
         balance := 0 }] [("7", [("1", 5)])] (by decide)).mpr (by decide)

end PackingChecker
